import Mathlib

/-!
Verification of the dbt v1-to-v2 schema-test converter
(`scripts/upgrade_dbt_schema_tests_v1_to_v2.py`).

The document tree loaded by the YAML collaborator is embedded as the
inductive type `Val` (scalars are modelled as strings; the scenario inputs
use only string scalars).  Python dictionaries are embedded as
insertion-ordered association lists, matching the insertion-order
iteration semantics of `dict`.  Python exceptions are embedded as an
explicit `Err` sum returned through `Except`.  Python's stable `sort`
with a key function is embedded as `List.insertionSort` over the key
comparison: a stable sort is uniquely determined by the comparison and
the input, so any stable sort is a faithful model.  String comparison is
embedded as lexicographic comparison of code points (`charListLe`),
matching Python's `str` ordering.
-/

namespace UpgradeSchema

/-- Lexicographic code-point comparison of character lists, the model of
Python string comparison. -/
def charListLe : List Char → List Char → Bool
  | [], _ => true
  | _ :: _, [] => false
  | a :: as, b :: bs =>
    if a.toNat < b.toNat then true
    else if b.toNat < a.toNat then false
    else charListLe as bs

/-- Python string `<=`. -/
def strLe (a b : String) : Bool := charListLe a.data b.data

/-- Python string `<` : not above, distinct. -/
def strLt (a b : String) : Prop := strLe a b = true ∧ a ≠ b

/-- Model of Python list/leading-piece check used by substring search:
`startsWith pat s` holds when `pat` is an initial segment of `s`. -/
def startsWith : List Char → List Char → Bool
  | [], _ => true
  | _ :: _, [] => false
  | a :: as, b :: bs => a.toNat == b.toNat && startsWith as bs

/-- Substring search on character lists. -/
def subSearch (pat : List Char) : List Char → Bool
  | [] => startsWith pat []
  | c :: rest => startsWith pat (c :: rest) || subSearch pat rest

/-- Model of Python `pat in s` for strings (substring containment). -/
def strContainsSub (s pat : String) : Bool := subSearch pat.data s.data

/-- Document values: scalar strings, insertion-ordered mappings with
string keys, and sequences. -/
inductive Val : Type where
  | s (v : String)
  | map (entries : List (String × Val))
  | arr (items : List Val)

mutual

/-- Rendering of a document value into error-message text, the model of
Python's str() on the loaded value (quoting omitted). -/
def pyStr : Val → String
  | .s v => v
  | .map es => "\x7b" ++ pyStrEntries es ++ "\x7d"
  | .arr items => "[" ++ pyStrItems items ++ "]"

/-- Rendering of mapping entries. -/
def pyStrEntries : List (String × Val) → String
  | [] => ""
  | [(k, v)] => k ++ ": " ++ pyStr v
  | (k, v) :: rest => k ++ ": " ++ pyStr v ++ ", " ++ pyStrEntries rest

/-- Rendering of sequence items. -/
def pyStrItems : List Val → String
  | [] => ""
  | [v] => pyStr v
  | v :: rest => pyStr v ++ ", " ++ pyStrItems rest

end

/-- Python exceptions that the conversion code can raise.
`operational` is the script's own OperationalError; the others model the
interpreter-raised exception classes. -/
inductive Err : Type where
  | operational (msg : String)
  | valueError (msg : String)
  | nameError (nm : String)
  | typeError (msg : String)
  | keyError (k : String)
  | attributeError (msg : String)
deriving DecidableEq

/-- A column record `\x7b'name': ..., 'tests': [...]\x7d` accumulated by the
builder. -/
structure Column where
  name : String
  tests : List Val

/-- State of one `ModelTestBuilder` instance: the model name, the
insertion-ordered `columns` dictionary keyed by column name, and the
(never-populated) model-level test list. -/
structure ModelTestBuilder where
  model_name : String
  columns : List (String × Column)
  model_tests : List Val

/-- `SIMPLE_COLUMN_TESTS = {'unique', 'not_null'}`. -/
def SIMPLE_COLUMN_TESTS : List String := ["unique", "not_null"]

/-- `COMPLEX_COLUMN_TESTS = {'relationships': 'from', 'accepted_values': 'field'}`. -/
def COMPLEX_COLUMN_TESTS : List (String × String) :=
  [("relationships", "from"), ("accepted_values", "field")]

/-- `get_column`: return the record for `column_name`, creating
`\x7b'name': column_name, 'tests': []\x7d` and storing it if absent.  The
functional embedding returns the record together with the updated
builder. -/
def ModelTestBuilder.get_column (b : ModelTestBuilder) (column_name : String) :
    Column × ModelTestBuilder :=
  match b.columns.lookup column_name with
  | some column => (column, b)
  | none =>
    let column : Column := { name := column_name, tests := [] }
    (column, { b with columns := b.columns ++ [(column_name, column)] })

/-- `add_test`: `get_column` then append `test_name` to that record's
test list (the Python code appends through the shared reference stored
in `columns`; the embedding updates the stored record). -/
def ModelTestBuilder.add_test (b : ModelTestBuilder) (column_name : String)
    (test_name : Val) : ModelTestBuilder :=
  let b' := (b.get_column column_name).2
  { b' with
    columns := b'.columns.map fun p =>
      if p.1 = column_name then (p.1, { p.2 with tests := p.2.tests ++ [test_name] }) else p }

/-- `handle_simple_column`: each value is used as a column name and gets
the bare test kind appended.  A mapping or sequence value is unhashable
as a `dict` key in Python, raising TypeError at the `get_column` lookup. -/
def ModelTestBuilder.handle_simple_column (b : ModelTestBuilder) :
    List Val → String → Except Err ModelTestBuilder
  | [], _ => Except.ok b
  | Val.s column_name :: rest, test_name =>
    ((b.add_test column_name (Val.s test_name)).handle_simple_column) rest test_name
  | Val.map _ :: _, _ => Except.error (Err.typeError "unhashable type: dict")
  | Val.arr _ :: _, _ => Except.error (Err.typeError "unhashable type: list")

/-- Text of the OperationalError raised for a complex-test element
without its designator key, mirroring the source format string
`got an invalid \x7b\x7d test in model \x7b\x7d, no "\x7b\x7d" value in \x7b\x7d`. -/
def invalidTestMsg (test_name model_name column_key : String) (dct : Val) : String :=
  "got an invalid " ++ test_name ++ " test in model " ++ model_name ++
    ", no \"" ++ column_key ++ "\" value in " ++ pyStr dct

/-- Loop body of `handle_complex_column` over the test-values sequence.
For a mapping element: missing designator key raises the
OperationalError; a non-string designator value is unhashable and raises
TypeError at `get_column`; otherwise the element minus the designator
key becomes the parameters of a single-key test entry added to the named
column.  For a string element Python's `in` is substring search and
indexing raises TypeError; for a sequence element `in` is membership and
indexing raises TypeError. -/
def ModelTestBuilder.handleComplexList (b : ModelTestBuilder) :
    List Val → String → String → Except Err ModelTestBuilder
  | [], _, _ => Except.ok b
  | Val.map entries :: rest, test_name, column_key =>
    match entries.lookup column_key with
    | none =>
      Except.error (Err.operational
        (invalidTestMsg test_name b.model_name column_key (Val.map entries)))
    | some (Val.s column_name) =>
      ((b.add_test column_name
          (Val.map [(test_name,
            Val.map (entries.filter fun p => p.1 != column_key))])).handleComplexList)
        rest test_name column_key
    | some (Val.map _) => Except.error (Err.typeError "unhashable type: dict")
    | some (Val.arr _) => Except.error (Err.typeError "unhashable type: list")
  | Val.s str :: _, test_name, column_key =>
    if strContainsSub str column_key then
      Except.error (Err.typeError "string indices must be integers")
    else
      Except.error (Err.operational
        (invalidTestMsg test_name b.model_name column_key (Val.s str)))
  | Val.arr items :: _, test_name, column_key =>
    if items.any fun x => match x with | Val.s y => y == column_key | _ => false then
      Except.error (Err.typeError "list indices must be integers")
    else
      Except.error (Err.operational
        (invalidTestMsg test_name b.model_name column_key (Val.arr items)))

/-- `handle_complex_column`: look up the designator key for the test
kind and process every element of the sequence. -/
def ModelTestBuilder.handle_complex_column (b : ModelTestBuilder)
    (test_values : List Val) (test_name : String) : Except Err ModelTestBuilder :=
  match COMPLEX_COLUMN_TESTS.lookup test_name with
  | none => Except.error (Err.keyError test_name)
  | some column_key => b.handleComplexList test_values test_name column_key

/-- `populate_test`: a non-list value takes the `isinstance` branch whose
error message evaluates the undefined name `model_name`, so Python
raises NameError there; a simple kind routes to `handle_simple_column`,
a complex kind to `handle_complex_column`, anything else raises
`ValueError('cannot handle any other tests')`. -/
def ModelTestBuilder.populate_test (b : ModelTestBuilder) (test_name : String)
    (test_values : Val) : Except Err ModelTestBuilder :=
  match test_values with
  | Val.arr values =>
    if test_name ∈ SIMPLE_COLUMN_TESTS then
      b.handle_simple_column values test_name
    else if (COMPLEX_COLUMN_TESTS.lookup test_name).isSome then
      b.handle_complex_column values test_name
    else
      Except.error (Err.valueError "cannot handle any other tests")
  | _ => Except.error (Err.nameError "model_name")

/-- Loop of `populate_from_constraints` over the constraint entries in
mapping iteration order. -/
def ModelTestBuilder.populateEntries (b : ModelTestBuilder) :
    List (String × Val) → Except Err ModelTestBuilder
  | [] => Except.ok b
  | (test_name, test_values) :: rest =>
    match b.populate_test test_name test_values with
    | Except.ok b' => b'.populateEntries rest
    | Except.error e => Except.error e

/-- `populate_from_constraints`: iterate `constraints.items()`; a
non-mapping value has no `.items()` and raises AttributeError. -/
def ModelTestBuilder.populate_from_constraints (b : ModelTestBuilder)
    (constraints : Val) : Except Err ModelTestBuilder :=
  match constraints with
  | Val.map cs => b.populateEntries cs
  | Val.s _ => Except.error (Err.attributeError "str object has no attribute items")
  | Val.arr _ => Except.error (Err.attributeError "list object has no attribute items")

/-- Key function of the final per-column test sort: a bare string is its
own key, a mapping's key is its first key (`list(item)[0]`).  Entries
are only ever bare strings or single-key mappings as constructed by
`add_test`; the remaining branches are unreachable defaults. -/
def sort_keyfunc : Val → String
  | Val.s v => v
  | Val.map ((k, _) :: _) => k
  | Val.map [] => ""
  | Val.arr _ => ""

/-- Ordering of column records by name used by `sorted(...)`. -/
def nameLe (a b : Column) : Prop := strLe a.name b.name = true

instance : DecidableRel nameLe := fun a b =>
  inferInstanceAs (Decidable (strLe a.name b.name = true))

/-- Ordering of test entries by `sort_keyfunc` used by `.sort(...)`. -/
def testLe (a b : Val) : Prop := strLe (sort_keyfunc a) (sort_keyfunc b) = true

instance : DecidableRel testLe := fun a b =>
  inferInstanceAs (Decidable (strLe (sort_keyfunc a) (sort_keyfunc b) = true))

/-- `sorted_column_list`: sort the column records by name, then sort each
record's tests by `sort_keyfunc` (both Python sorts are stable). -/
def sorted_column_list (column_dict : List (String × Column)) : List Column :=
  (List.insertionSort nameLe (column_dict.map Prod.snd)).map fun column =>
    { column with tests := List.insertionSort testLe column.tests }

/-- Serialization of a column record back into a document value. -/
def columnVal (c : Column) : Val :=
  Val.map [("name", Val.s c.name), ("tests", Val.arr c.tests)]

/-- `generate_model_dict`: `\x7b'name': ...\x7d` plus `tests` if any model
tests exist (they never do) plus `columns` if any column exists. -/
def ModelTestBuilder.generate_model_dict (b : ModelTestBuilder) : Val :=
  Val.map ([("name", Val.s b.model_name)]
    ++ (if b.model_tests.isEmpty then [] else [("tests", Val.arr b.model_tests)])
    ++ (if b.columns.isEmpty then []
        else [("columns", Val.arr ((sorted_column_list b.columns).map columnVal))]))

/-- Model of Python `k in v`: key membership for a mapping, substring
search for a string, element membership for a sequence. -/
def hasKeyPy (v : Val) (k : String) : Bool :=
  match v with
  | Val.map es => (es.lookup k).isSome
  | Val.s str => strContainsSub str k
  | Val.arr items => items.any fun x => match x with | Val.s y => y == k | _ => false

/-- Model of Python `v[k]` for a string key: mapping lookup (KeyError when
absent), TypeError on strings and sequences. -/
def getItemPy (v : Val) (k : String) : Except Err Val :=
  match v with
  | Val.map es =>
    match es.lookup k with
    | some x => Except.ok x
    | none => Except.error (Err.keyError k)
  | Val.s _ => Except.error (Err.typeError "string indices must be integers")
  | Val.arr _ => Except.error (Err.typeError "list indices must be integers")

/-- One iteration of the `convert_schema` loop: skip the model when its
definition has no `constraints` key, otherwise build and emit its model
record. -/
def convertModel (model_name : String) (model_data : Val) : Except Err (Option Val) :=
  if hasKeyPy model_data "constraints" then
    match getItemPy model_data "constraints" with
    | Except.error e => Except.error e
    | Except.ok constraints =>
      match ModelTestBuilder.populate_from_constraints
          { model_name := model_name, columns := [], model_tests := [] } constraints with
      | Except.error e => Except.error e
      | Except.ok b => Except.ok (some b.generate_model_dict)
  else Except.ok none

/-- The `convert_schema` loop over the top-level mapping in iteration
order, accumulating emitted model records. -/
def convert_models : List (String × Val) → Except Err (List Val)
  | [] => Except.ok []
  | (model_name, model_data) :: rest =>
    match convertModel model_name model_data with
    | Except.error e => Except.error e
    | Except.ok none => convert_models rest
    | Except.ok (some m) =>
      match convert_models rest with
      | Except.error e => Except.error e
      | Except.ok ms => Except.ok (m :: ms)

/-- The output document `\x7b'version': 2, 'models': models\x7d`. -/
structure Schema where
  version : Nat
  models : List Val

/-- `convert_schema`: iterate the top-level mapping and assemble the
version-2 document. -/
def convert_schema (initial : List (String × Val)) : Except Err Schema :=
  match convert_models initial with
  | Except.error e => Except.error e
  | Except.ok models => Except.ok { version := 2, models := models }

/-- Key lookup on a document value that is a mapping. -/
def getKey (v : Val) (k : String) : Option Val :=
  match v with
  | Val.map es => es.lookup k
  | _ => none

/-- The name string carried by a serialized column or model record. -/
def colNameStr (v : Val) : String :=
  match getKey v "name" with
  | some (Val.s n) => n
  | _ => ""

/-- Builder well-formedness: the columns dictionary has no duplicate
keys, and every stored record's name equals its key.  This holds for
every builder the conversion constructs, because `columns` is only
extended through `get_column`. -/
def WF (b : ModelTestBuilder) : Prop :=
  (b.columns.map Prod.fst).Nodup ∧ ∀ p ∈ b.columns, p.2.name = p.1

instance (b : ModelTestBuilder) : Decidable (WF b) :=
  inferInstanceAs (Decidable (_ ∧ _))

/-- One builder state evolving into another through the populate
operations: well-formedness is preserved and the model name and
model-level tests are untouched. -/
def Evolves (b b' : ModelTestBuilder) : Prop :=
  (WF b → WF b') ∧ b'.model_name = b.model_name ∧ b'.model_tests = b.model_tests

/-- The SAMPLE_SCHEMA fixture of the source's unit test. -/
def sampleSchema : List (String × Val) :=
  [("foo", Val.map [("constraints", Val.map
      [("not_null", Val.arr [Val.s "id", Val.s "email", Val.s "favorite_color"]),
       ("unique", Val.arr [Val.s "id", Val.s "email"]),
       ("accepted_values", Val.arr
         [Val.map [("field", Val.s "favorite_color"),
                   ("values", Val.arr [Val.s "blue", Val.s "green"])],
          Val.map [("field", Val.s "likes_puppies"),
                   ("values", Val.arr [Val.s "yes"])]])])]),
   ("bar", Val.map [("constraints", Val.map
      [("not_null", Val.arr [Val.s "id"])])])]

/-- Expected converted columns for model `foo`, in output order. -/
def fooColumnsVal : List Val :=
  [Val.map [("name", Val.s "email"),
            ("tests", Val.arr [Val.s "not_null", Val.s "unique"])],
   Val.map [("name", Val.s "favorite_color"),
            ("tests", Val.arr
              [Val.map [("accepted_values",
                 Val.map [("values", Val.arr [Val.s "blue", Val.s "green"])])],
               Val.s "not_null"])],
   Val.map [("name", Val.s "id"),
            ("tests", Val.arr [Val.s "not_null", Val.s "unique"])],
   Val.map [("name", Val.s "likes_puppies"),
            ("tests", Val.arr
              [Val.map [("accepted_values",
                 Val.map [("values", Val.arr [Val.s "yes"])])]])]]

/-- Expected converted record for model `foo`. -/
def fooModelVal : Val :=
  Val.map [("name", Val.s "foo"), ("columns", Val.arr fooColumnsVal)]

/-- Expected converted record for model `bar`. -/
def barModelVal : Val :=
  Val.map [("name", Val.s "bar"),
    ("columns", Val.arr
      [Val.map [("name", Val.s "id"),
                ("tests", Val.arr [Val.s "not_null"])]])]

/-- Fresh builder fixture used by concrete instances. -/
def mBuilder : ModelTestBuilder := { model_name := "m", columns := [], model_tests := [] }

/-- Builder fixture after accumulating a simple and a complex test entry
on the column id. -/
def accBuilder : ModelTestBuilder :=
  (mBuilder.add_test "id" (Val.s "not_null")).add_test "id"
    (Val.map [("accepted_values", Val.map [])])

/-- Column-dictionary fixture whose single column declares a duplicated
test entry, exercising sort stability. -/
def tieColumnDict : List (String × Column) :=
  [("a", { name := "a", tests := [Val.s "unique", Val.s "not_null", Val.s "unique"] })]

/-- The column record that sorting the fixture produces. -/
def tieSortedColumn : Column :=
  { name := "a", tests := [Val.s "not_null", Val.s "unique", Val.s "unique"] }

/-! ### String-comparison lemmas -/

theorem char_eq_of_toNat_eq {a b : Char} (h : a.toNat = b.toNat) : a = b := by
  rw [← Char.ofNat_toNat a, h, Char.ofNat_toNat]

theorem charListLe_total : ∀ as bs, charListLe as bs = true ∨ charListLe bs as = true
  | [], _ => Or.inl rfl
  | _ :: _, [] => Or.inr rfl
  | a :: as, b :: bs => by
    by_cases h₁ : a.toNat < b.toNat
    · exact Or.inl (by simp [charListLe, h₁])
    · by_cases h₂ : b.toNat < a.toNat
      · exact Or.inr (by simp [charListLe, h₂])
      · cases charListLe_total as bs with
        | inl h => exact Or.inl (by simp [charListLe, h₁, h₂, h])
        | inr h => exact Or.inr (by simp [charListLe, h₁, h₂, h])

theorem charListLe_trans : ∀ as bs cs, charListLe as bs = true → charListLe bs cs = true →
    charListLe as cs = true
  | [], _, _ => fun _ _ => rfl
  | _ :: _, [], _ => fun h _ => by simp [charListLe] at h
  | _ :: _, _ :: _, [] => fun _ h => by simp [charListLe] at h
  | a :: as, b :: bs, c :: cs => by
    intro h₁ h₂
    simp only [charListLe] at h₁ h₂ ⊢
    by_cases hab : a.toNat < b.toNat
    · by_cases hbc : b.toNat < c.toNat
      · rw [if_pos (Nat.lt_trans hab hbc)]
      · by_cases hcb : c.toNat < b.toNat
        · rw [if_neg hbc, if_pos hcb] at h₂
          exact absurd h₂ (by simp)
        · have hbceq : b.toNat = c.toNat :=
            Nat.le_antisymm (Nat.not_lt.mp hcb) (Nat.not_lt.mp hbc)
          rw [if_pos (show a.toNat < c.toNat by omega)]
    · by_cases hba : b.toNat < a.toNat
      · rw [if_neg hab, if_pos hba] at h₁
        exact absurd h₁ (by simp)
      · have habeq : a.toNat = b.toNat :=
          Nat.le_antisymm (Nat.not_lt.mp hba) (Nat.not_lt.mp hab)
        rw [if_neg hab, if_neg hba] at h₁
        by_cases hbc : b.toNat < c.toNat
        · rw [if_pos (show a.toNat < c.toNat by omega)]
        · by_cases hcb : c.toNat < b.toNat
          · rw [if_neg hbc, if_pos hcb] at h₂
            exact absurd h₂ (by simp)
          · have hbceq : b.toNat = c.toNat :=
              Nat.le_antisymm (Nat.not_lt.mp hcb) (Nat.not_lt.mp hbc)
            rw [if_neg hbc, if_neg hcb] at h₂
            rw [if_neg (show ¬a.toNat < c.toNat by omega),
              if_neg (show ¬c.toNat < a.toNat by omega)]
            exact charListLe_trans as bs cs h₁ h₂

theorem charListLe_antisymm : ∀ as bs, charListLe as bs = true → charListLe bs as = true →
    as = bs
  | [], [] => fun _ _ => rfl
  | [], _ :: _ => fun _ h => by simp [charListLe] at h
  | _ :: _, [] => fun h _ => by simp [charListLe] at h
  | a :: as, b :: bs => by
    intro h₁ h₂
    simp only [charListLe] at h₁ h₂
    by_cases hab : a.toNat < b.toNat
    · rw [if_neg (by omega), if_pos hab] at h₂
      exact absurd h₂ (by simp)
    · by_cases hba : b.toNat < a.toNat
      · rw [if_neg hab, if_pos hba] at h₁
        exact absurd h₁ (by simp)
      · have habeq : a.toNat = b.toNat := Nat.le_antisymm (Nat.not_lt.mp hba) (Nat.not_lt.mp hab)
        rw [if_neg hab, if_neg hba] at h₁
        rw [if_neg hba, if_neg hab] at h₂
        rw [char_eq_of_toNat_eq habeq, charListLe_antisymm as bs h₁ h₂]

theorem strLe_total (a b : String) : strLe a b = true ∨ strLe b a = true :=
  charListLe_total a.data b.data

theorem strLe_trans {a b c : String} (h₁ : strLe a b = true) (h₂ : strLe b c = true) :
    strLe a c = true :=
  charListLe_trans a.data b.data c.data h₁ h₂

theorem strLe_refl (a : String) : strLe a a = true :=
  (strLe_total a a).elim id id

theorem strLe_antisymm {a b : String} (h₁ : strLe a b = true) (h₂ : strLe b a = true) :
    a = b := by
  have h := charListLe_antisymm a.data b.data h₁ h₂
  cases a
  cases b
  exact congrArg String.mk h

instance : IsTotal Column nameLe := ⟨fun a b => strLe_total a.name b.name⟩

instance : IsTrans Column nameLe := ⟨fun _ _ _ h₁ h₂ => strLe_trans h₁ h₂⟩

instance : IsTotal Val testLe := ⟨fun a b => strLe_total (sort_keyfunc a) (sort_keyfunc b)⟩

instance : IsTrans Val testLe := ⟨fun _ _ _ h₁ h₂ => strLe_trans h₁ h₂⟩

/-! ### Stability of the sort model -/

theorem filter_insertionSort_eq {α : Type} (r : α → α → Prop) [DecidableRel r] (p : α → Bool)
    (hp : ∀ a b, p a = true → p b = true → r a b) (l : List α) :
    (List.insertionSort r l).filter p = l.filter p := by
  have h₁ : (l.filter p).Pairwise r :=
    List.pairwise_of_forall_mem_list fun a ha b hb =>
      hp a b (List.of_mem_filter ha) (List.of_mem_filter hb)
  have h₂ : List.Sublist (l.filter p) (List.insertionSort r l) :=
    List.sublist_insertionSort h₁ (List.filter_sublist l)
  have h₃ : List.Sublist (l.filter p) ((List.insertionSort r l).filter p) := by
    have h := h₂.filter p
    rwa [List.filter_filter,
      (by funext a; rw [Bool.and_self] : (fun a => p a && p a) = p)] at h
  have h₄ : ((List.insertionSort r l).filter p).length = (l.filter p).length :=
    ((List.perm_insertionSort r l).filter p).length_eq
  exact (h₃.eq_of_length h₄.symm).symm

/-! ### Association-list lemmas -/

theorem lookup_eq_none_iff_keys {β : Type} (l : List (String × β)) (k : String) :
    l.lookup k = none ↔ k ∉ l.map Prod.fst := by
  rw [List.lookup_eq_none_iff]
  constructor
  · intro h hk
    obtain ⟨p, hp, hpk⟩ := List.mem_map.mp hk
    have hne := h p hp
    rw [bne_iff_ne] at hne
    exact hne hpk.symm
  · intro h p hp
    rw [bne_iff_ne]
    intro hkp
    exact h (by rw [hkp]; exact List.mem_map_of_mem Prod.fst hp)

theorem mem_keys_of_lookup_eq_some {β : Type} {l : List (String × β)} {k : String} {v : β}
    (h : l.lookup k = some v) : k ∈ l.map Prod.fst := by
  by_contra hk
  rw [← lookup_eq_none_iff_keys] at hk
  rw [h] at hk
  exact Option.noConfusion hk

theorem mem_unique_of_nodup_keys {β : Type} :
    ∀ {l : List (String × β)}, (l.map Prod.fst).Nodup →
      ∀ {k : String} {v₁ v₂ : β}, (k, v₁) ∈ l → (k, v₂) ∈ l → v₁ = v₂
  | [], _, _, _, _, h₁, _ => absurd h₁ (List.not_mem_nil _)
  | (k₀, v₀) :: rest, hnd, k, v₁, v₂, h₁, h₂ => by
    rw [List.map_cons, List.nodup_cons] at hnd
    cases h₁ with
    | head =>
      cases h₂ with
      | head => rfl
      | tail _ h₂ =>
        exact absurd (List.mem_map_of_mem Prod.fst h₂) hnd.1
    | tail _ h₁ =>
      cases h₂ with
      | head => exact absurd (List.mem_map_of_mem Prod.fst h₁) hnd.1
      | tail _ h₂ => exact mem_unique_of_nodup_keys hnd.2 h₁ h₂

/-! ### Builder-state lemmas -/

theorem get_column_of_some {b : ModelTestBuilder} {n : String} {c : Column}
    (h : b.columns.lookup n = some c) : b.get_column n = (c, b) := by
  simp [ModelTestBuilder.get_column, h]

theorem get_column_of_none {b : ModelTestBuilder} {n : String}
    (h : b.columns.lookup n = none) :
    b.get_column n =
      ({ name := n, tests := [] },
       { b with columns := b.columns ++ [(n, { name := n, tests := [] })] }) := by
  simp [ModelTestBuilder.get_column, h]

theorem add_test_of_some {b : ModelTestBuilder} {n : String} {c : Column} (t : Val)
    (h : b.columns.lookup n = some c) :
    b.add_test n t =
      { b with columns := b.columns.map fun p =>
          if p.1 = n then (p.1, { p.2 with tests := p.2.tests ++ [t] }) else p } := by
  unfold ModelTestBuilder.add_test
  rw [get_column_of_some h]

theorem add_test_of_none {b : ModelTestBuilder} {n : String} (t : Val)
    (h : b.columns.lookup n = none) :
    b.add_test n t =
      { b with columns :=
          (b.columns ++ [(n, ({ name := n, tests := [] } : Column))]).map fun p =>
            if p.1 = n then (p.1, { p.2 with tests := p.2.tests ++ [t] }) else p } := by
  unfold ModelTestBuilder.add_test
  rw [get_column_of_none h]

theorem upd_map_fst (l : List (String × Column)) (n : String) (t : Val) :
    ((l.map fun p =>
        if p.1 = n then (p.1, { p.2 with tests := p.2.tests ++ [t] }) else p).map Prod.fst)
      = l.map Prod.fst := by
  rw [List.map_map]
  apply List.map_congr_left
  intro p _
  by_cases h : p.1 = n <;> simp [h]

theorem lookup_upd_self : ∀ (l : List (String × Column)) (n : String) (t : Val)
    {c : Column}, l.lookup n = some c →
    (l.map fun p =>
        if p.1 = n then (p.1, { p.2 with tests := p.2.tests ++ [t] }) else p).lookup n
      = some { c with tests := c.tests ++ [t] }
  | [], _, _, _, h => by simp at h
  | (k, v) :: rest, n, t, c, h => by
    by_cases hk : n = k
    · subst hk
      rw [List.lookup_cons_self] at h
      injection h with h
      subst h
      simp
    · have hbk : (n == k) = false := beq_eq_false_iff_ne.mpr hk
      have hkn : ¬k = n := fun h' => hk h'.symm
      simp only [List.lookup_cons, hbk] at h
      simp only [List.map_cons, if_neg hkn, List.lookup_cons, hbk]
      exact lookup_upd_self rest n t h

theorem lookup_upd_none (l : List (String × Column)) (n : String) (t : Val)
    (h : l.lookup n = none) :
    (l.map fun p =>
        if p.1 = n then (p.1, { p.2 with tests := p.2.tests ++ [t] }) else p).lookup n
      = none := by
  rw [lookup_eq_none_iff_keys] at h ⊢
  rwa [upd_map_fst]

theorem add_test_map_fst_of_some {b : ModelTestBuilder} {n : String} {c : Column} (t : Val)
    (h : b.columns.lookup n = some c) :
    (b.add_test n t).columns.map Prod.fst = b.columns.map Prod.fst := by
  rw [add_test_of_some t h]
  exact upd_map_fst b.columns n t

theorem add_test_map_fst_of_none {b : ModelTestBuilder} {n : String} (t : Val)
    (h : b.columns.lookup n = none) :
    (b.add_test n t).columns.map Prod.fst = b.columns.map Prod.fst ++ [n] := by
  rw [add_test_of_none t h]
  show ((b.columns ++ [(n, ({ name := n, tests := [] } : Column))]).map _).map Prod.fst = _
  rw [upd_map_fst]
  simp

theorem WF_add_test {b : ModelTestBuilder} (n : String) (t : Val) (hw : WF b) :
    WF (b.add_test n t) := by
  obtain ⟨hnd, hname⟩ := hw
  cases h : b.columns.lookup n with
  | some c =>
    rw [add_test_of_some t h]
    refine ⟨?_, ?_⟩
    · show ((b.columns.map _).map Prod.fst).Nodup
      rwa [upd_map_fst]
    · intro q hq
      obtain ⟨p, hp, rfl⟩ := List.mem_map.mp hq
      by_cases hpn : p.1 = n
      · simp only [if_pos hpn]
        exact hname p hp
      · simp only [if_neg hpn]
        exact hname p hp
  | none =>
    rw [add_test_of_none t h]
    have hki : n ∉ b.columns.map Prod.fst := (lookup_eq_none_iff_keys _ _).mp h
    refine ⟨?_, ?_⟩
    · show (((b.columns ++ _).map _).map Prod.fst).Nodup
      rw [upd_map_fst, List.map_append]
      simp only [List.map_cons, List.map_nil]
      rw [List.nodup_append]
      refine ⟨hnd, List.nodup_singleton n, ?_⟩
      intro x hx hxn
      rw [List.mem_singleton] at hxn
      exact hki (hxn ▸ hx)
    · intro q hq
      obtain ⟨p, hp, rfl⟩ := List.mem_map.mp hq
      have hp' : p ∈ b.columns ∨ p ∈ [(n, ({ name := n, tests := [] } : Column))] :=
        List.mem_append.mp hp
      by_cases hpn : p.1 = n
      · simp only [if_pos hpn]
        cases hp' with
        | inl hmem => exact hname p hmem
        | inr hmem =>
          rw [List.mem_singleton] at hmem
          subst hmem
          rfl
      · simp only [if_neg hpn]
        cases hp' with
        | inl hmem => exact hname p hmem
        | inr hmem =>
          rw [List.mem_singleton] at hmem
          subst hmem
          exact absurd rfl hpn

theorem WF_init (n : String) : WF { model_name := n, columns := [], model_tests := [] } :=
  ⟨List.nodup_nil, fun p hp => absurd hp (List.not_mem_nil p)⟩

theorem add_test_model_name (b : ModelTestBuilder) (n : String) (t : Val) :
    (b.add_test n t).model_name = b.model_name := by
  cases h : b.columns.lookup n
  · rw [add_test_of_none t h]
  · rw [add_test_of_some t h]

theorem add_test_model_tests (b : ModelTestBuilder) (n : String) (t : Val) :
    (b.add_test n t).model_tests = b.model_tests := by
  cases h : b.columns.lookup n
  · rw [add_test_of_none t h]
  · rw [add_test_of_some t h]

theorem evolves_refl (b : ModelTestBuilder) : Evolves b b := ⟨id, rfl, rfl⟩

theorem evolves_trans {a b c : ModelTestBuilder} (h₁ : Evolves a b) (h₂ : Evolves b c) :
    Evolves a c :=
  ⟨fun hw => h₂.1 (h₁.1 hw), h₂.2.1.trans h₁.2.1, h₂.2.2.trans h₁.2.2⟩

theorem evolves_add_test (b : ModelTestBuilder) (n : String) (t : Val) :
    Evolves b (b.add_test n t) :=
  ⟨WF_add_test n t, add_test_model_name b n t, add_test_model_tests b n t⟩

theorem handle_simple_evolves : ∀ (vs : List Val) (tn : String) {b b' : ModelTestBuilder},
    b.handle_simple_column vs tn = Except.ok b' → Evolves b b'
  | [], _, b, _, h => by
    injection h with h
    exact h ▸ evolves_refl b
  | Val.s cn :: rest, tn, b, b', h =>
    evolves_trans (evolves_add_test b cn (Val.s tn)) (handle_simple_evolves rest tn h)
  | Val.map _ :: _, _, _, _, h => nomatch h
  | Val.arr _ :: _, _, _, _, h => nomatch h

theorem handleComplexList_evolves :
    ∀ (vs : List Val) (tn ck : String) {b b' : ModelTestBuilder},
      b.handleComplexList vs tn ck = Except.ok b' → Evolves b b'
  | [], _, _, b, _, h => by
    injection h with h
    exact h ▸ evolves_refl b
  | Val.map entries :: rest, tn, ck, b, b', h => by
    simp only [ModelTestBuilder.handleComplexList] at h
    cases hl : entries.lookup ck with
    | none =>
      rw [hl] at h
      exact nomatch h
    | some v =>
      rw [hl] at h
      cases v with
      | s cn =>
        exact evolves_trans (evolves_add_test b cn _) (handleComplexList_evolves rest tn ck h)
      | map _ => exact nomatch h
      | arr _ => exact nomatch h
  | Val.s str :: _, tn, ck, b, b', h => by
    simp only [ModelTestBuilder.handleComplexList] at h
    split at h <;> exact nomatch h
  | Val.arr items :: _, tn, ck, b, b', h => by
    simp only [ModelTestBuilder.handleComplexList] at h
    split at h <;> exact nomatch h

theorem populate_test_evolves (tn : String) (tv : Val) {b b' : ModelTestBuilder}
    (h : b.populate_test tn tv = Except.ok b') : Evolves b b' := by
  cases tv with
  | s _ => exact nomatch h
  | map _ => exact nomatch h
  | arr vs =>
    simp only [ModelTestBuilder.populate_test] at h
    by_cases hs : tn ∈ SIMPLE_COLUMN_TESTS
    · rw [if_pos hs] at h
      exact handle_simple_evolves vs tn h
    · rw [if_neg hs] at h
      by_cases hc : (COMPLEX_COLUMN_TESTS.lookup tn).isSome
      · rw [if_pos hc] at h
        simp only [ModelTestBuilder.handle_complex_column] at h
        cases hk : COMPLEX_COLUMN_TESTS.lookup tn with
        | none =>
          rw [hk] at h
          exact nomatch h
        | some ck =>
          rw [hk] at h
          exact handleComplexList_evolves vs tn ck h
      · rw [if_neg hc] at h
        exact nomatch h

theorem populateEntries_evolves : ∀ (cs : List (String × Val)) {b b' : ModelTestBuilder},
    b.populateEntries cs = Except.ok b' → Evolves b b'
  | [], b, _, h => by
    injection h with h
    exact h ▸ evolves_refl b
  | (k, v) :: rest, b, b', h => by
    simp only [ModelTestBuilder.populateEntries] at h
    cases hp : b.populate_test k v with
    | error e =>
      rw [hp] at h
      exact nomatch h
    | ok b₁ =>
      rw [hp] at h
      exact evolves_trans (populate_test_evolves k v hp) (populateEntries_evolves rest h)

theorem populate_from_constraints_evolves (cv : Val) {b b' : ModelTestBuilder}
    (h : b.populate_from_constraints cv = Except.ok b') : Evolves b b' := by
  cases cv with
  | s _ => exact nomatch h
  | arr _ => exact nomatch h
  | map cs => exact populateEntries_evolves cs h

/-! ### Model-record generation lemmas -/

theorem generate_model_dict_eq (b : ModelTestBuilder) :
    b.generate_model_dict = Val.map (("name", Val.s b.model_name)
      :: ((if b.model_tests.isEmpty then [] else [("tests", Val.arr b.model_tests)])
        ++ (if b.columns.isEmpty then []
            else [("columns",
              Val.arr ((sorted_column_list b.columns).map columnVal))]))) := by
  unfold ModelTestBuilder.generate_model_dict
  simp

theorem generate_model_dict_name (b : ModelTestBuilder) :
    getKey b.generate_model_dict "name" = some (Val.s b.model_name) := by
  rw [generate_model_dict_eq]
  unfold getKey
  exact List.lookup_cons_self

theorem generate_model_dict_columns {b : ModelTestBuilder} (h : b.columns.isEmpty = false) :
    getKey b.generate_model_dict "columns"
      = some (Val.arr ((sorted_column_list b.columns).map columnVal)) := by
  rw [generate_model_dict_eq]
  unfold getKey
  rw [if_neg (show ¬b.columns.isEmpty = true by rw [h]; exact fun hc => nomatch hc)]
  cases b.model_tests.isEmpty <;> simp [List.lookup_cons]

theorem generate_model_dict_only_name {b : ModelTestBuilder} (h₁ : b.model_tests = [])
    (h₂ : b.columns = []) :
    b.generate_model_dict = Val.map [("name", Val.s b.model_name)] := by
  unfold ModelTestBuilder.generate_model_dict
  rw [h₁, h₂]
  rfl

/-! ### Sorting lemmas for the column list -/

theorem sorted_column_list_names {cd : List (String × Column)}
    (h₁ : (cd.map Prod.fst).Nodup) (h₂ : ∀ p ∈ cd, p.2.name = p.1) :
    (sorted_column_list cd).Pairwise fun a b => strLt a.name b.name := by
  have hv : (cd.map Prod.snd).map Column.name = cd.map Prod.fst := by
    rw [List.map_map]
    exact List.map_congr_left fun p hp => h₂ p hp
  have hnd : ((cd.map Prod.snd).map Column.name).Nodup := hv ▸ h₁
  have hperm : List.Perm (List.insertionSort nameLe (cd.map Prod.snd)) (cd.map Prod.snd) :=
    List.perm_insertionSort nameLe (cd.map Prod.snd)
  have hnd' : ((List.insertionSort nameLe (cd.map Prod.snd)).map Column.name).Nodup :=
    ((hperm.map Column.name).nodup_iff).mpr hnd
  have hne : (List.insertionSort nameLe (cd.map Prod.snd)).Pairwise
      fun a b => Column.name a ≠ Column.name b := List.pairwise_map.mp hnd'
  have hs : (List.insertionSort nameLe (cd.map Prod.snd)).Pairwise nameLe :=
    List.sorted_insertionSort nameLe (cd.map Prod.snd)
  have hcomb := hs.and hne
  unfold sorted_column_list
  rw [List.pairwise_map]
  exact hcomb.imp fun h => ⟨h.1, h.2⟩

theorem mem_sorted_column_list {cd : List (String × Column)} {c : Column}
    (h : c ∈ sorted_column_list cd) :
    ∃ c₀, c₀ ∈ cd.map Prod.snd ∧ c₀.name = c.name ∧
      c.tests = List.insertionSort testLe c₀.tests := by
  unfold sorted_column_list at h
  obtain ⟨c', hc', rfl⟩ := List.mem_map.mp h
  exact ⟨c', (List.perm_insertionSort nameLe (cd.map Prod.snd)).mem_iff.mp hc', rfl, rfl⟩

/-! ### Converter-level lemmas -/

theorem convertModel_ok_some {n : String} {d : Val} {m : Val}
    (h : convertModel n d = Except.ok (some m)) :
    ∃ cv b, getItemPy d "constraints" = Except.ok cv ∧
      ModelTestBuilder.populate_from_constraints
        { model_name := n, columns := [], model_tests := [] } cv = Except.ok b ∧
      m = b.generate_model_dict := by
  unfold convertModel at h
  by_cases hk : hasKeyPy d "constraints" = true
  · rw [if_pos hk] at h
    cases hg : getItemPy d "constraints" with
    | error e =>
      rw [hg] at h
      exact nomatch h
    | ok cv =>
      rw [hg] at h
      replace h : (match ModelTestBuilder.populate_from_constraints
          { model_name := n, columns := [], model_tests := [] } cv with
        | Except.error e => Except.error e
        | Except.ok b => Except.ok (some b.generate_model_dict)) = Except.ok (some m) := h
      cases hp : ModelTestBuilder.populate_from_constraints
          { model_name := n, columns := [], model_tests := [] } cv with
      | error e =>
        rw [hp] at h
        exact nomatch h
      | ok b =>
        rw [hp] at h
        replace h : Except.ok (some b.generate_model_dict) = Except.ok (some m) := h
        injection h with h
        injection h with h
        exact ⟨cv, b, rfl, hp, h.symm⟩
  · rw [if_neg hk] at h
    injection h with h
    exact nomatch h

theorem convertModel_builder_props {n : String} {cv : Val} {b : ModelTestBuilder}
    (hp : ModelTestBuilder.populate_from_constraints
      { model_name := n, columns := [], model_tests := [] } cv = Except.ok b) :
    WF b ∧ b.model_name = n ∧ b.model_tests = [] := by
  have he := populate_from_constraints_evolves cv hp
  exact ⟨he.1 (WF_init n), he.2.1, he.2.2⟩

theorem convert_models_mem : ∀ {l : List (String × Val)} {ms : List Val} {m : Val},
    convert_models l = Except.ok ms → m ∈ ms →
    ∃ n d, (n, d) ∈ l ∧ convertModel n d = Except.ok (some m)
  | [], _, m, h, hm => by
    injection h with h
    subst h
    exact absurd hm (List.not_mem_nil m)
  | (n₀, d₀) :: rest, ms, m, h, hm => by
    simp only [convert_models] at h
    cases hc : convertModel n₀ d₀ with
    | error e =>
      rw [hc] at h
      exact nomatch h
    | ok o =>
      rw [hc] at h
      cases o with
      | none =>
        obtain ⟨n, d, hmem, hcm⟩ := convert_models_mem h hm
        exact ⟨n, d, List.mem_cons_of_mem _ hmem, hcm⟩
      | some m₀ =>
        cases hr : convert_models rest with
        | error e =>
          rw [hr] at h
          exact nomatch h
        | ok ms' =>
          rw [hr] at h
          injection h with h
          subst h
          cases hm with
          | head => exact ⟨n₀, d₀, List.mem_cons_self _ _, hc⟩
          | tail _ hm' =>
            obtain ⟨n, d, hmem, hcm⟩ := convert_models_mem hr hm'
            exact ⟨n, d, List.mem_cons_of_mem _ hmem, hcm⟩

theorem convert_models_mem_of : ∀ {l : List (String × Val)} {ms : List Val} {n : String}
    {d m : Val}, convert_models l = Except.ok ms → (n, d) ∈ l →
    convertModel n d = Except.ok (some m) → m ∈ ms
  | [], _, _, _, _, _, he, _ => absurd he (List.not_mem_nil _)
  | (n₀, d₀) :: rest, ms, n, d, m, h, he, hc => by
    simp only [convert_models] at h
    cases hc₀ : convertModel n₀ d₀ with
    | error e =>
      rw [hc₀] at h
      exact nomatch h
    | ok o =>
      rw [hc₀] at h
      cases o with
      | none =>
        cases he with
        | head =>
          rw [hc] at hc₀
          injection hc₀ with hc₀
          exact nomatch hc₀
        | tail _ he' => exact convert_models_mem_of h he' hc
      | some m₀ =>
        cases hr : convert_models rest with
        | error e =>
          rw [hr] at h
          exact nomatch h
        | ok ms' =>
          rw [hr] at h
          injection h with h
          subst h
          cases he with
          | head =>
            rw [hc] at hc₀
            injection hc₀ with hc₀
            injection hc₀ with hc₀
            exact hc₀ ▸ List.mem_cons_self _ _
          | tail _ he' =>
            exact List.mem_cons_of_mem _ (convert_models_mem_of hr he' hc)

theorem convert_models_error_of_mem {l : List (String × Val)} {n : String} {d : Val}
    (he : (n, d) ∈ l) (hc : ∃ e, convertModel n d = Except.error e) :
    ∃ e, convert_models l = Except.error e := by
  induction he with
  | head rest =>
    obtain ⟨e, he'⟩ := hc
    refine ⟨e, ?_⟩
    simp only [convert_models, he']
  | tail b hm ih =>
    obtain ⟨n₀, d₀⟩ := b
    obtain ⟨e', hrec⟩ := ih
    simp only [convert_models]
    cases hc₀ : convertModel n₀ d₀ with
    | error e => exact ⟨e, rfl⟩
    | ok o =>
      cases o with
      | none => exact ⟨e', hrec⟩
      | some m₀ => exact ⟨e', by rw [hrec]⟩

theorem convert_schema_ok_models {initial : List (String × Val)} {doc : Schema}
    (hok : convert_schema initial = Except.ok doc) :
    convert_models initial = Except.ok doc.models := by
  unfold convert_schema at hok
  cases hcm : convert_models initial with
  | error e =>
    rw [hcm] at hok
    exact nomatch hok
  | ok ms =>
    rw [hcm] at hok
    injection hok with hok
    rw [← hok]

/-! ### Error-path lemmas -/

theorem populate_test_unknown_err {k : String} (h₁ : k ∉ SIMPLE_COLUMN_TESTS)
    (h₂ : COMPLEX_COLUMN_TESTS.lookup k = none) (b : ModelTestBuilder) (v : Val) :
    ∃ e, b.populate_test k v = Except.error e := by
  cases v with
  | s _ => exact ⟨Err.nameError "model_name", rfl⟩
  | map _ => exact ⟨Err.nameError "model_name", rfl⟩
  | arr vs =>
    refine ⟨Err.valueError "cannot handle any other tests", ?_⟩
    simp only [ModelTestBuilder.populate_test]
    rw [if_neg h₁, if_neg (by rw [h₂]; exact fun hc => nomatch hc)]

theorem populateEntries_err : ∀ (cs : List (String × Val)) {k : String} {v : Val},
    (k, v) ∈ cs → k ∉ SIMPLE_COLUMN_TESTS → COMPLEX_COLUMN_TESTS.lookup k = none →
    ∀ b : ModelTestBuilder, ∃ e, b.populateEntries cs = Except.error e
  | [], _, _, hm, _, _, _ => absurd hm (List.not_mem_nil _)
  | (k₀, v₀) :: rest, k, v, hm, h₁, h₂, b => by
    simp only [ModelTestBuilder.populateEntries]
    cases hp : b.populate_test k₀ v₀ with
    | error e => exact ⟨e, rfl⟩
    | ok b₁ =>
      cases hm with
      | head =>
        obtain ⟨e, he⟩ := populate_test_unknown_err h₁ h₂ b v₀
        rw [he] at hp
        exact nomatch hp
      | tail _ hm' => exact populateEntries_err rest hm' h₁ h₂ b₁

theorem convertModel_err_of_unknown {n : String} {es cs : List (String × Val)} {k : String}
    {v : Val} (hcs : es.lookup "constraints" = some (Val.map cs)) (hkv : (k, v) ∈ cs)
    (h₁ : k ∉ SIMPLE_COLUMN_TESTS) (h₂ : COMPLEX_COLUMN_TESTS.lookup k = none) :
    ∃ e, convertModel n (Val.map es) = Except.error e := by
  obtain ⟨e, he⟩ := populateEntries_err cs hkv h₁ h₂
    { model_name := n, columns := [], model_tests := [] }
  refine ⟨e, ?_⟩
  unfold convertModel
  rw [if_pos (show hasKeyPy (Val.map es) "constraints" = true by simp [hasKeyPy, hcs])]
  have hg : getItemPy (Val.map es) "constraints" = Except.ok (Val.map cs) := by
    simp [getItemPy, hcs]
  rw [hg]
  show (match ModelTestBuilder.populate_from_constraints
      { model_name := n, columns := [], model_tests := [] } (Val.map cs) with
    | Except.error e => Except.error e
    | Except.ok b => Except.ok (some b.generate_model_dict)) = Except.error e
  have he' : ModelTestBuilder.populate_from_constraints
      { model_name := n, columns := [], model_tests := [] } (Val.map cs) = Except.error e := he
  rw [he']

/-! ### Lemmas for the missing-designator error -/

theorem handleComplexList_missing : ∀ (vs : List Val) (b : ModelTestBuilder) (tn ck : String),
    (∀ x ∈ vs, ∃ es, x = Val.map es) →
    (∀ es v, Val.map es ∈ vs → es.lookup ck = some v → ∃ s, v = Val.s s) →
    (∃ es, Val.map es ∈ vs ∧ es.lookup ck = none) →
    ∃ es, Val.map es ∈ vs ∧ es.lookup ck = none ∧
      b.handleComplexList vs tn ck
        = Except.error (Err.operational (invalidTestMsg tn b.model_name ck (Val.map es)))
  | [], _, _, _, _, _, hbad => by
    obtain ⟨es, hm, _⟩ := hbad
    exact absurd hm (List.not_mem_nil _)
  | x :: rest, b, tn, ck, hmaps, hstr, hbad => by
    obtain ⟨es₀, rfl⟩ := hmaps x (List.mem_cons_self x rest)
    cases hl : es₀.lookup ck with
    | none =>
      refine ⟨es₀, List.mem_cons_self _ _, hl, ?_⟩
      simp only [ModelTestBuilder.handleComplexList, hl]
    | some v =>
      obtain ⟨s, rfl⟩ := hstr es₀ v (List.mem_cons_self _ _) hl
      have hbad' : ∃ es, Val.map es ∈ rest ∧ es.lookup ck = none := by
        obtain ⟨es, hm, hn⟩ := hbad
        rcases List.mem_cons.mp hm with heq | hm'
        · injection heq with heq
          subst heq
          rw [hn] at hl
          exact nomatch hl
        · exact ⟨es, hm', hn⟩
      obtain ⟨es, hm', hn, hres⟩ := handleComplexList_missing rest
        (b.add_test s (Val.map [(tn, Val.map (es₀.filter fun p => p.1 != ck))])) tn ck
        (fun x hx => hmaps x (List.mem_cons_of_mem _ hx))
        (fun es v hm hlv => hstr es v (List.mem_cons_of_mem _ hm) hlv) hbad'
      refine ⟨es, List.mem_cons_of_mem _ hm', hn, ?_⟩
      simp only [ModelTestBuilder.handleComplexList, hl]
      rw [hres, add_test_model_name]

/-! ### Lemmas for column accumulation -/

theorem get_column_idem (b : ModelTestBuilder) (n : String) :
    (b.get_column n).2.get_column n = ((b.get_column n).1, (b.get_column n).2) := by
  cases h : b.columns.lookup n with
  | some c =>
    rw [get_column_of_some h]
    exact get_column_of_some h
  | none =>
    rw [get_column_of_none h]
    apply get_column_of_some
    simp [List.lookup_append, h]

theorem add_test_lookup (b : ModelTestBuilder) (n : String) (t : Val) :
    (b.add_test n t).columns.lookup n
      = some { name := (b.get_column n).1.name, tests := (b.get_column n).1.tests ++ [t] } := by
  cases h : b.columns.lookup n with
  | some c =>
    rw [add_test_of_some t h, get_column_of_some h]
    exact lookup_upd_self b.columns n t h
  | none =>
    rw [add_test_of_none t h, get_column_of_none h]
    have hl : (b.columns ++ [(n, ({ name := n, tests := [] } : Column))]).lookup n
        = some { name := n, tests := [] } := by
      simp [List.lookup_append, h]
    exact lookup_upd_self (b.columns ++ [(n, ({ name := n, tests := [] } : Column))]) n t hl

theorem sorted_names_count (B : ModelTestBuilder) (hw : WF B) (n : String) :
    ((sorted_column_list B.columns).map Column.name).count n
      = (B.columns.map Prod.fst).count n := by
  have hv : (B.columns.map Prod.snd).map Column.name = B.columns.map Prod.fst := by
    rw [List.map_map]
    exact List.map_congr_left fun p hp => hw.2 p hp
  have h₁ : (sorted_column_list B.columns).map Column.name
      = (List.insertionSort nameLe (B.columns.map Prod.snd)).map Column.name := by
    unfold sorted_column_list
    rw [List.map_map]
    exact List.map_congr_left fun c _ => rfl
  rw [h₁, ← hv]
  exact ((List.perm_insertionSort nameLe (B.columns.map Prod.snd)).map Column.name).count_eq n

/-! ### Claim theorems -/

/-- C1: on the SAMPLE_SCHEMA scenario input (model foo with constraints
not_null:[id,email,favorite_color], unique:[id,email], accepted_values on
favorite_color/likes_puppies; model bar with not_null:[id]),
`convert_schema` returns version 2 and exactly the two model records:
bar with the single column id carrying tests [not_null], and foo with the
four columns email, favorite_color, id, likes_puppies in that order
carrying the stated test lists. -/
theorem c1_scenario :
    convert_schema sampleSchema
      = Except.ok { version := 2, models := [fooModelVal, barModelVal] } := rfl

/-- C2 (counterexample): for the unknown constraint kind `foo_bar_test`,
`populate_test` raises ValueError with the fixed message
`cannot handle any other tests`; that message does not say
`unrecognized test kind` and does not name the kind, refuting the
claimed error message. -/
theorem c2_counterexample :
    ModelTestBuilder.populate_test
        { model_name := "m", columns := [], model_tests := [] } "foo_bar_test" (Val.arr [])
      = Except.error (Err.valueError "cannot handle any other tests")
    ∧ strContainsSub "cannot handle any other tests" "unrecognized test kind" = false
    ∧ strContainsSub "cannot handle any other tests" "foo_bar_test" = false :=
  ⟨rfl, rfl, rfl⟩

/-- C2 (amended): for every model whose constraints mapping contains a
test kind outside the known simple and complex sets, `populate_test` on
that kind (with list-shaped values) fails with
ValueError `cannot handle any other tests` — a fixed message that does
not name the kind — and the conversion produces no output document. -/
theorem c2_unknown_kind (initial : List (String × Val)) (name k : String)
    (es cs : List (String × Val)) (v : Val) (b : ModelTestBuilder) (vs : List Val)
    (hmem : (name, Val.map es) ∈ initial)
    (hcs : es.lookup "constraints" = some (Val.map cs))
    (hkv : (k, v) ∈ cs)
    (h₁ : k ∉ SIMPLE_COLUMN_TESTS)
    (h₂ : COMPLEX_COLUMN_TESTS.lookup k = none) :
    b.populate_test k (Val.arr vs)
        = Except.error (Err.valueError "cannot handle any other tests")
    ∧ ∃ e, convert_schema initial = Except.error e := by
  constructor
  · simp only [ModelTestBuilder.populate_test]
    rw [if_neg h₁, if_neg (by rw [h₂]; exact fun hc => nomatch hc)]
  · obtain ⟨e, he⟩ :=
      convert_models_error_of_mem hmem (convertModel_err_of_unknown hcs hkv h₁ h₂)
    refine ⟨e, ?_⟩
    unfold convert_schema
    rw [he]

/-- C2 (witness): the amended claim at the concrete one-model document
with the unknown kind foo_bar_test. -/
theorem c2_unknown_kind_witness :
    (("m", Val.map [("constraints", Val.map [("foo_bar_test", Val.arr [])])])
        ∈ [("m", Val.map [("constraints", Val.map [("foo_bar_test", Val.arr [])])])])
    ∧ ("foo_bar_test" : String) ∉ SIMPLE_COLUMN_TESTS
    ∧ COMPLEX_COLUMN_TESTS.lookup "foo_bar_test" = none
    ∧ (ModelTestBuilder.populate_test
          { model_name := "m", columns := [], model_tests := [] } "foo_bar_test" (Val.arr [])
        = Except.error (Err.valueError "cannot handle any other tests")
      ∧ ∃ e, convert_schema
          [("m", Val.map [("constraints", Val.map [("foo_bar_test", Val.arr [])])])]
        = Except.error e) :=
  ⟨List.Mem.head _, by decide, rfl,
    c2_unknown_kind _ "m" "foo_bar_test" _ _ (Val.arr []) _ []
      (List.Mem.head _) rfl (List.Mem.head _) (by decide) rfl⟩

/-- C3 (code behavior at the failing input): for a model whose
`not_null` constraint value is the string `id` rather than a list, the
conversion raises NameError on the undefined name `model_name` (the
error-message format string references `model_name` instead of
`self.model_name`), not the intended OperationalError that would name
the test kind, the model and the observed type. -/
theorem c3_nonlist_behavior :
    convert_schema [("m", Val.map [("constraints", Val.map [("not_null", Val.s "id")])])]
      = Except.error (Err.nameError "model_name") := rfl

/-- C4: for a complex test kind with designator key, when the test-values
sequence consists of mappings (whose designator values, where present,
are column-name strings) and some element lacks the designator key,
`handle_complex_column` fails with the OperationalError naming the test
kind, the model name, and the raw offending element, and no output is
produced. -/
theorem c4_missing_designator (b : ModelTestBuilder) (test_name column_key : String)
    (vs : List Val)
    (hk : COMPLEX_COLUMN_TESTS.lookup test_name = some column_key)
    (hmaps : ∀ x ∈ vs, ∃ es, x = Val.map es)
    (hstr : ∀ es v, Val.map es ∈ vs → es.lookup column_key = some v → ∃ s, v = Val.s s)
    (hbad : ∃ es, Val.map es ∈ vs ∧ es.lookup column_key = none) :
    ∃ es, Val.map es ∈ vs ∧ es.lookup column_key = none ∧
      b.handle_complex_column vs test_name
        = Except.error (Err.operational
            (invalidTestMsg test_name b.model_name column_key (Val.map es))) := by
  have hred : b.handle_complex_column vs test_name
      = b.handleComplexList vs test_name column_key := by
    unfold ModelTestBuilder.handle_complex_column
    rw [hk]
  obtain ⟨es, hm, hn, hres⟩ :=
    handleComplexList_missing vs b test_name column_key hmaps hstr hbad
  refine ⟨es, hm, hn, ?_⟩
  rw [hred, hres]

/-- C4 (witness): the accepted_values element missing its `field` key. -/
theorem c4_missing_designator_witness :
    COMPLEX_COLUMN_TESTS.lookup "accepted_values" = some "field"
    ∧ (∃ es, Val.map es ∈ [Val.map [("values", Val.arr [Val.s "one"])]] ∧
        es.lookup "field" = none ∧
        ModelTestBuilder.handle_complex_column
            { model_name := "m", columns := [], model_tests := [] }
            [Val.map [("values", Val.arr [Val.s "one"])]] "accepted_values"
          = Except.error (Err.operational (invalidTestMsg "accepted_values" "m" "field"
              (Val.map [("values", Val.arr [Val.s "one"])])))) := by
  refine ⟨rfl, ?_⟩
  obtain ⟨es, hm, hn, hres⟩ :=
    c4_missing_designator { model_name := "m", columns := [], model_tests := [] }
      "accepted_values" "field" [Val.map [("values", Val.arr [Val.s "one"])]] rfl
      (fun x hx => by
        rcases List.mem_cons.mp hx with h | h
        · exact ⟨_, h⟩
        · exact absurd h (List.not_mem_nil x))
      (fun es v hm hl => by
        rcases List.mem_cons.mp hm with h | h
        · injection h with h
          subst h
          exact nomatch hl
        · exact absurd h (List.not_mem_nil _))
      ⟨_, List.Mem.head _, rfl⟩
  rcases List.mem_cons.mp hm with h | h
  · injection h with h
    subst h
    exact ⟨_, List.Mem.head _, hn, hres⟩
  · exact absurd h (List.not_mem_nil _)

/-- C5: a model whose definition mapping has no `constraints` key never
contributes a record to the output `models` list, and its absence is not
an error: in any successful conversion no output model record carries
its name. -/
theorem c5_drop_rule (initial : List (String × Val)) (doc : Schema) (name : String)
    (es : List (String × Val))
    (hnd : (initial.map Prod.fst).Nodup)
    (hmem : (name, Val.map es) ∈ initial)
    (hnc : es.lookup "constraints" = none)
    (hok : convert_schema initial = Except.ok doc) :
    ∀ m ∈ doc.models, getKey m "name" ≠ some (Val.s name) := by
  intro m hm heq
  have hms := convert_schema_ok_models hok
  obtain ⟨n, d, hmem', hcm⟩ := convert_models_mem hms hm
  obtain ⟨cv, b, hg, hp, rfl⟩ := convertModel_ok_some hcm
  obtain ⟨hwb, hbn, hbt⟩ := convertModel_builder_props hp
  rw [generate_model_dict_name, hbn] at heq
  injection heq with heq
  injection heq with heq
  subst heq
  have hd : d = Val.map es := mem_unique_of_nodup_keys hnd hmem' hmem
  subst hd
  unfold convertModel at hcm
  rw [if_neg (show ¬hasKeyPy (Val.map es) "constraints" = true by
    simp [hasKeyPy, hnc])] at hcm
  injection hcm with hcm
  exact nomatch hcm

/-- C5 (witness): a two-model document where model `a` has no
constraints key; the output contains no record named `a`. -/
theorem c5_drop_rule_witness :
    (([("a", Val.map []), ("b", Val.map [("constraints", Val.map [])])].map Prod.fst).Nodup)
    ∧ (("a", Val.map [])
        ∈ [("a", Val.map []), ("b", Val.map [("constraints", Val.map [])])])
    ∧ convert_schema [("a", Val.map []), ("b", Val.map [("constraints", Val.map [])])]
        = Except.ok { version := 2, models := [Val.map [("name", Val.s "b")]] }
    ∧ ∀ m ∈ ({ version := 2, models := [Val.map [("name", Val.s "b")]] } : Schema).models,
        getKey m "name" ≠ some (Val.s "a") :=
  ⟨by decide, List.Mem.head _, rfl,
    c5_drop_rule [("a", Val.map []), ("b", Val.map [("constraints", Val.map [])])]
      { version := 2, models := [Val.map [("name", Val.s "b")]] } "a" []
      (by decide) (List.Mem.head _) rfl rfl⟩

/-- C6: in the output of a successful conversion, every model record's
columns list is sorted strictly ascending by column name under
lexicographic string ordering. -/
theorem c6_columns_sorted (initial : List (String × Val)) (doc : Schema) (m : Val)
    (cols : List Val)
    (hok : convert_schema initial = Except.ok doc)
    (hm : m ∈ doc.models)
    (hc : getKey m "columns" = some (Val.arr cols)) :
    cols.Pairwise fun x y => strLt (colNameStr x) (colNameStr y) := by
  have hms := convert_schema_ok_models hok
  obtain ⟨n, d, hmem', hcm⟩ := convert_models_mem hms hm
  obtain ⟨cv, b, hg, hp, rfl⟩ := convertModel_ok_some hcm
  obtain ⟨hwb, hbn, hbt⟩ := convertModel_builder_props hp
  cases hce : b.columns.isEmpty with
  | true =>
    have hemp : b.columns = [] := List.isEmpty_iff.mp hce
    rw [generate_model_dict_only_name hbt hemp] at hc
    simp [getKey, List.lookup_cons] at hc
  | false =>
    rw [generate_model_dict_columns hce] at hc
    injection hc with hc
    injection hc with hc
    subst hc
    rw [List.pairwise_map]
    exact (sorted_column_list_names hwb.1 hwb.2).imp fun h => h

/-- C6 (witness): the scenario output's foo record has its four columns
in strictly ascending name order. -/
theorem c6_columns_sorted_witness :
    convert_schema sampleSchema
        = Except.ok { version := 2, models := [fooModelVal, barModelVal] }
    ∧ fooModelVal ∈ ({ version := 2, models := [fooModelVal, barModelVal] } : Schema).models
    ∧ getKey fooModelVal "columns" = some (Val.arr fooColumnsVal)
    ∧ fooColumnsVal.Pairwise fun x y => strLt (colNameStr x) (colNameStr y) :=
  ⟨rfl, List.Mem.head _, rfl,
    c6_columns_sorted sampleSchema { version := 2, models := [fooModelVal, barModelVal] }
      fooModelVal fooColumnsVal rfl (List.Mem.head _) rfl⟩

/-- C7: every column record produced by `sorted_column_list` has its
test-entry list sorted ascending by the `sort_keyfunc` key, and the sort
is stable: for every key value, the entries with that key appear in
their original insertion order (the filtered sublists coincide). -/
theorem c7_tests_sorted_stable (column_dict : List (String × Column)) (c : Column)
    (h : c ∈ sorted_column_list column_dict) :
    c.tests.Pairwise testLe
    ∧ ∃ c₀, c₀ ∈ column_dict.map Prod.snd ∧ c₀.name = c.name ∧
        ∀ k : String, c.tests.filter (fun e => sort_keyfunc e == k)
          = c₀.tests.filter (fun e => sort_keyfunc e == k) := by
  obtain ⟨c₀, hm, hname, htests⟩ := mem_sorted_column_list h
  refine ⟨?_, c₀, hm, hname, fun k => ?_⟩
  · rw [htests]
    exact List.sorted_insertionSort testLe c₀.tests
  · rw [htests]
    apply filter_insertionSort_eq
    intro a b ha hb
    show strLe (sort_keyfunc a) (sort_keyfunc b) = true
    rw [eq_of_beq ha, eq_of_beq hb]
    exact strLe_refl k

/-- C7 (witness): a column declared with tests [unique, not_null,
unique] comes out as [not_null, unique, unique] — sorted by key and with
the duplicate entries kept in insertion order. -/
theorem c7_tests_sorted_stable_witness :
    tieSortedColumn ∈ sorted_column_list tieColumnDict
    ∧ (tieSortedColumn.tests.Pairwise testLe
      ∧ ∃ c₀, c₀ ∈ tieColumnDict.map Prod.snd ∧ c₀.name = tieSortedColumn.name ∧
          ∀ k : String, tieSortedColumn.tests.filter (fun e => sort_keyfunc e == k)
            = c₀.tests.filter (fun e => sort_keyfunc e == k)) :=
  ⟨List.Mem.head _, c7_tests_sorted_stable tieColumnDict tieSortedColumn (List.Mem.head _)⟩

/-- C8: `get_column` is idempotent (a repeated call with the same name
returns the same record and leaves the builder unchanged), and a column
name used by several constraint kinds yields exactly one column record
whose test list accumulates one entry per appearance, both in the
builder's dictionary and in the generated sorted column list. -/
theorem c8_accumulation (b : ModelTestBuilder) (n : String) (t₁ t₂ : Val) (hw : WF b) :
    (b.get_column n).2.get_column n = ((b.get_column n).1, (b.get_column n).2)
    ∧ (((b.add_test n t₁).add_test n t₂).columns.map Prod.fst).count n = 1
    ∧ ((b.add_test n t₁).add_test n t₂).columns.lookup n
        = some { name := (b.get_column n).1.name,
                 tests := (b.get_column n).1.tests ++ [t₁, t₂] }
    ∧ (((sorted_column_list ((b.add_test n t₁).add_test n t₂).columns).map
          Column.name).count n = 1) := by
  have hl₂ := add_test_lookup (b.add_test n t₁) n t₂
  rw [get_column_of_some (add_test_lookup b n t₁)] at hl₂
  have hw₂ : WF ((b.add_test n t₁).add_test n t₂) := WF_add_test n t₂ (WF_add_test n t₁ hw)
  have hmem₂ : n ∈ ((b.add_test n t₁).add_test n t₂).columns.map Prod.fst :=
    mem_keys_of_lookup_eq_some hl₂
  refine ⟨get_column_idem b n, ?_, ?_, ?_⟩
  · exact List.count_eq_one_of_mem hw₂.1 hmem₂
  · simpa [List.append_assoc] using hl₂
  · rw [sorted_names_count _ hw₂ n]
    exact List.count_eq_one_of_mem hw₂.1 hmem₂

/-- C8 (witness): accumulating a simple and a complex test entry on the
column id of a fresh builder. -/
theorem c8_accumulation_witness :
    WF mBuilder
    ∧ ((mBuilder.get_column "id").2.get_column "id"
        = ((mBuilder.get_column "id").1, (mBuilder.get_column "id").2)
      ∧ (accBuilder.columns.map Prod.fst).count "id" = 1
      ∧ accBuilder.columns.lookup "id"
          = some { name := (mBuilder.get_column "id").1.name,
                   tests := (mBuilder.get_column "id").1.tests
                     ++ [Val.s "not_null", Val.map [("accepted_values", Val.map [])]] }
      ∧ ((sorted_column_list accBuilder.columns).map Column.name).count "id" = 1) :=
  ⟨by decide,
    c8_accumulation mBuilder "id" (Val.s "not_null")
      (Val.map [("accepted_values", Val.map [])]) (by decide)⟩

/-- C9: a complex-test element containing its designator key contributes
a test to the column named by the designator value, and the entry added
is the single-key mapping from the test kind to the element with the
designator key removed, the order of the remaining keys preserved. -/
theorem c9_complex_entry (b : ModelTestBuilder) (test_name column_key name : String)
    (es : List (String × Val)) (rest : List Val)
    (hk : COMPLEX_COLUMN_TESTS.lookup test_name = some column_key)
    (hdes : es.lookup column_key = some (Val.s name)) :
    b.handle_complex_column (Val.map es :: rest) test_name
      = (b.add_test name (Val.map [(test_name,
          Val.map (es.filter fun p => p.1 != column_key))])).handleComplexList
          rest test_name column_key := by
  unfold ModelTestBuilder.handle_complex_column
  rw [hk]
  simp only [ModelTestBuilder.handleComplexList, hdes]

/-- C9 (witness): the accepted_values element on favorite_color adds the
single-key entry with the `field` key removed and `values` preserved. -/
theorem c9_complex_entry_witness :
    COMPLEX_COLUMN_TESTS.lookup "accepted_values" = some "field"
    ∧ ([("field", Val.s "favorite_color"),
        ("values", Val.arr [Val.s "blue"])].lookup "field" = some (Val.s "favorite_color"))
    ∧ ModelTestBuilder.handle_complex_column
          { model_name := "m", columns := [], model_tests := [] }
          [Val.map [("field", Val.s "favorite_color"), ("values", Val.arr [Val.s "blue"])]]
          "accepted_values"
        = (({ model_name := "m", columns := [], model_tests := [] } : ModelTestBuilder).add_test
            "favorite_color"
            (Val.map [("accepted_values",
              Val.map [("values", Val.arr [Val.s "blue"])])])).handleComplexList
          [] "accepted_values" "field" :=
  ⟨rfl, rfl,
    c9_complex_entry { model_name := "m", columns := [], model_tests := [] }
      "accepted_values" "field" "favorite_color"
      [("field", Val.s "favorite_color"), ("values", Val.arr [Val.s "blue"])] [] rfl rfl⟩

/-- C10: a model whose `constraints` key maps to an empty mapping is not
dropped: its processing succeeds and emits the record holding only the
`name` key (no `columns` and no `tests` key), and in any successful
conversion of a document containing it that record appears in the output
`models` list. -/
theorem c10_empty_constraints (name : String) (es : List (String × Val))
    (h : es.lookup "constraints" = some (Val.map [])) :
    convertModel name (Val.map es) = Except.ok (some (Val.map [("name", Val.s name)]))
    ∧ ∀ (initial : List (String × Val)) (doc : Schema),
        convert_schema initial = Except.ok doc → (name, Val.map es) ∈ initial →
        Val.map [("name", Val.s name)] ∈ doc.models := by
  have hcm : convertModel name (Val.map es)
      = Except.ok (some (Val.map [("name", Val.s name)])) := by
    unfold convertModel
    rw [if_pos (show hasKeyPy (Val.map es) "constraints" = true by simp [hasKeyPy, h])]
    have hg : getItemPy (Val.map es) "constraints" = Except.ok (Val.map []) := by
      simp [getItemPy, h]
    rw [hg]
    rfl
  refine ⟨hcm, fun initial doc hok hmem => ?_⟩
  exact convert_models_mem_of (convert_schema_ok_models hok) hmem hcm

/-- C10 (witness): the one-model document with empty constraints yields
exactly the name-only record. -/
theorem c10_empty_constraints_witness :
    ([(("constraints" : String), Val.map [])].lookup "constraints" = some (Val.map []))
    ∧ (convertModel "m" (Val.map [("constraints", Val.map [])])
        = Except.ok (some (Val.map [("name", Val.s "m")]))
      ∧ ∀ (initial : List (String × Val)) (doc : Schema),
          convert_schema initial = Except.ok doc →
          ("m", Val.map [("constraints", Val.map [])]) ∈ initial →
          Val.map [("name", Val.s "m")] ∈ doc.models) :=
  ⟨rfl, c10_empty_constraints "m" [("constraints", Val.map [])] rfl⟩

end UpgradeSchema
